import Mathlib

/-!
Shallow embedding of the quiz-form navigation state machine and the
multi-action submission orchestrator from
`src/components/quiz-form/QuizForm.tsx`, together with theorems checking
the natural-language specification against this code.

Conventions of the embedding:
* JavaScript values stored in `formData` (string, string-array, number)
  become the inductive `Value`; an absent entry is `Option.none`.
* JavaScript objects used as string-keyed maps (`conditionalNext`,
  `formData`) become association lists with first-match lookup (object
  keys are unique, so this is faithful).
* `undefined`-able TS fields become `Option`.
* The -1 sentinel of `Array.prototype.findIndex` is kept by computing
  indices in `Int`.
* Console logging, GTM analytics pushes and rendering are pure
  observers and are dropped; presentation-only attributes of the TS
  interfaces (colors, placeholders, slider props, ...) are omitted
  because no modelled function reads them.
-/

namespace QuizForm

/-- A JavaScript answer value as stored in `formData`:
a string, an array of strings (checkbox fields), or a number. -/
inductive Value where
  | str : String → Value
  | arr : List String → Value
  | num : Int → Value
deriving DecidableEq, Repr

/-- Field types of the `FormPage` TS interface
(`"text" | "email" | "number" | "select" | "radio" | "checkbox" |
"textarea" | "progress process" | "content"`). -/
inductive FieldType where
  | text
  | email
  | number
  | select
  | radio
  | checkbox
  | textarea
  | progressProcess
  | content
deriving DecidableEq, Repr

/-- The `FormPage` TS interface, restricted to the attributes read by the
navigation logic (`id`, `type`, `required`, `conditionalNext`,
`defaultNext`); presentation attributes are omitted. `conditionalNext`
is the entry list of the JS object mapping stringified answers to field
ids (keys unique, first-match lookup). -/
structure FormPage where
  id : String
  type : FieldType
  required : Bool := false
  conditionalNext : Option (List (String × String)) := none
  defaultNext : Option String := none
deriving DecidableEq, Repr

/-- The answer mapping `formData : Record<string, any>`. -/
abbrev AnswerSet := List (String × Value)

/-- Lookup `formData[fieldId]` (`none` models `undefined`). -/
def lookupAnswer (data : AnswerSet) (fieldId : String) : Option Value :=
  match data with
  | [] => none
  | (k, v) :: rest => if k = fieldId then some v else lookupAnswer rest fieldId

/-- Object spread update `{...prev, [fieldId]: value}` observed through
`lookupAnswer`. -/
def storeAnswer (data : AnswerSet) (fieldId : String) (v : Value) : AnswerSet :=
  (fieldId, v) :: data

/-- `findFieldById`: `fields.find((field) => field.id === fieldId)`. -/
def findFieldById (fields : List FormPage) (fieldId : String) : Option FormPage :=
  fields.find? (fun field => field.id = fieldId)

/-- `getFieldIndex`: `fields.findIndex (field.id === fieldId)`, with the
JS -1 sentinel when the id is absent. -/
def getFieldIndex (fields : List FormPage) (fieldId : String) : Int :=
  match fields.findIdx? (fun field => field.id = fieldId) with
  | some i => (i : Int)
  | none => -1

/-- JavaScript `v.toString()` for the values a field can hold: a string
is itself, an array joins with "," and a number prints in decimal. -/
def jsToString : Value → String
  | .str s => s
  | .arr xs => String.intercalate "," xs
  | .num n => toString n

/-- The `answerKey` computed inside `evaluateConditionalNext`:
radio/select and the default branch use `fieldValue?.toString() || ""`
(so `undefined` and the empty string both become `""`); the checkbox
branch uses `Array.isArray(fieldValue) ? fieldValue.join(",") : ""`. -/
def answerKey (fieldType : FieldType) (fieldValue : Option Value) : String :=
  match fieldType with
  | .checkbox =>
    match fieldValue with
    | some (.arr xs) => String.intercalate "," xs
    | _ => ""
  | _ =>
    match fieldValue with
    | some v => jsToString v
    | none => ""

/-- JS object lookup `rules[key]` on the entry list. -/
def lookupRule (rules : List (String × String)) (key : String) : Option String :=
  match rules with
  | [] => none
  | (k, v) :: rest => if k = key then some v else lookupRule rest key

/-- Truthiness of `string | undefined` (`undefined` and `""` are falsy). -/
def strTruthy : Option String → Bool
  | some s => s ≠ ""
  | none => false

/-- `evaluateConditionalNext(currentField, fieldValue, fields)`:
`null` when the field has no `conditionalNext` object; otherwise looks up
the answer key in `conditionalNext` and returns the target when it is
truthy and exists in `fields`; otherwise returns a truthy, existing
`defaultNext`; otherwise `null`. -/
def evaluateConditionalNext (currentField : FormPage) (fieldValue : Option Value)
    (fields : List FormPage) : Option String :=
  match currentField.conditionalNext with
  | none => none
  | some rules =>
    let key := answerKey currentField.type fieldValue
    let nextFieldId := lookupRule rules key
    if strTruthy nextFieldId ∧ (findFieldById fields (nextFieldId.getD "")).isSome then
      nextFieldId
    else if strTruthy currentField.defaultNext ∧
        (findFieldById fields (currentField.defaultNext.getD "")).isSome then
      currentField.defaultNext
    else
      none

/-- `getNextFieldId(currentField, fieldValue, fields)`: conditional
resolution first; otherwise linear progression
(`fields[currentIndex + 1]` when `0 <= currentIndex < fields.length - 1`);
`null` at the end of the form. -/
def getNextFieldId (currentField : FormPage) (fieldValue : Option Value)
    (fields : List FormPage) : Option String :=
  match evaluateConditionalNext currentField fieldValue fields with
  | some conditionalNext => some conditionalNext
  | none =>
    let currentIndex : Int := getFieldIndex fields currentField.id
    if 0 ≤ currentIndex ∧ currentIndex < (fields.length : Int) - 1 then
      match fields[(currentIndex + 1).toNat]? with
      | some nextField => some nextField.id
      | none => none
    else
      none

/-- The linear-progression branch of `getNextFieldId` as a standalone
function (the `fields[currentIndex + 1]` lookup guarded by
`0 <= currentIndex < fields.length - 1`). -/
def linearNextId (fields : List FormPage) (fieldId : String) : Option String :=
  let currentIndex : Int := getFieldIndex fields fieldId
  if 0 ≤ currentIndex ∧ currentIndex < (fields.length : Int) - 1 then
    match fields[(currentIndex + 1).toNat]? with
    | some nextField => some nextField.id
    | none => none
  else
    none

/-- Written from the words of the specification claim, for comparison
with `getNextFieldId`: resolve the `conditionalNext` entry for the
stringified answer first, then `defaultNext`, then the next field in
linear order, where a target that does not exist in the field collection
is tolerated and resolution falls through to the next rule. -/
def resolveNextClaimed (currentField : FormPage) (fieldValue : Option Value)
    (fields : List FormPage) : Option String :=
  let condTarget : Option String :=
    match currentField.conditionalNext with
    | some rules =>
      match lookupRule rules (answerKey currentField.type fieldValue) with
      | some t => if (findFieldById fields t).isSome then some t else none
      | none => none
    | none => none
  let defaultTarget : Option String :=
    match currentField.defaultNext with
    | some d => if (findFieldById fields d).isSome then some d else none
    | none => none
  match condTarget with
  | some t => some t
  | none =>
    match defaultTarget with
    | some d => some d
    | none => linearNextId fields currentField.id

/-- Written from the words of the amended claim, for comparison with
`getNextFieldId`: when the current field defines a `conditionalNext`
map, resolve the entry for the stringified answer first, then
`defaultNext`, then linear order, where an empty-string or dangling
target falls through to the next rule; a field without a
`conditionalNext` map ignores `defaultNext` and advances in linear
order. -/
def resolveNextAmended (currentField : FormPage) (fieldValue : Option Value)
    (fields : List FormPage) : Option String :=
  match currentField.conditionalNext with
  | none => linearNextId fields currentField.id
  | some rules =>
    let condTarget : Option String :=
      match lookupRule rules (answerKey currentField.type fieldValue) with
      | some t => if t ≠ "" ∧ (findFieldById fields t).isSome then some t else none
      | none => none
    let defaultTarget : Option String :=
      match currentField.defaultNext with
      | some d => if d ≠ "" ∧ (findFieldById fields d).isSome then some d else none
      | none => none
    match condTarget with
    | some t => some t
    | none =>
      match defaultTarget with
      | some d => some d
      | none => linearNextId fields currentField.id

/-!
Navigator state machine: the navigation-relevant state of `useFormLogic`
(`currentFieldId`, `navigationHistory`, `formData`, `error`) and its
transitions `handleInputChange`, `handleNext`, `handlePrevious`.
-/

/-- Navigation-relevant state of the `useFormLogic` hook. -/
structure FormState where
  currentFieldId : String
  navigationHistory : List String
  formData : AnswerSet
  error : Bool
deriving Repr

/-- Initial hook state: `currentFieldId = fields[0]?.id || ""` and
`navigationHistory = [fields[0]?.id || ""]`. -/
def firstFieldId (fields : List FormPage) : String :=
  match fields.head? with
  | some field => field.id
  | none => ""

/-- Initial state of `useFormLogic`. -/
def initialState (fields : List FormPage) : FormState :=
  { currentFieldId := firstFieldId fields
    navigationHistory := [firstFieldId fields]
    formData := []
    error := false }

/-- `handleInputChange(fieldId, value)`: stores the value into
`formData`; touches neither the current field, the history nor the
error flag. -/
def handleInputChange (s : FormState) (fieldId : String) (v : Value) : FormState :=
  { s with formData := storeAnswer s.formData fieldId v }

/-- Emptiness test refuted by `validateCurrentField`:
`value !== undefined && value !== "" && (!Array.isArray(value) || value.length > 0)`
fails exactly on `undefined`, the empty string and the empty array. -/
def isEmptyAnswer : Option Value → Bool
  | none => true
  | some (.str s) => s = ""
  | some (.arr xs) => xs.isEmpty
  | some (.num _) => false

/-- The value `handleNext`/`validateCurrentField` operate on:
`overrideValue !== undefined ? overrideValue : formData[currentField.id]`. -/
def effectiveValue (s : FormState) (currentField : FormPage)
    (overrideValue : Option Value) : Option Value :=
  match overrideValue with
  | some v => some v
  | none => lookupAnswer s.formData currentField.id

/-- `validateCurrentField(overrideValue?)`: for a required current field
the effective value must be non-empty; a non-required or unresolvable
current field always validates. -/
def validateCurrentField (fields : List FormPage) (s : FormState)
    (overrideValue : Option Value) : Bool :=
  match findFieldById fields s.currentFieldId with
  | some currentField =>
    if currentField.required then ¬ isEmptyAnswer (effectiveValue s currentField overrideValue)
    else true
  | none => true

/-- `handleNext(overrideValue?)`: early return when the current field
does not resolve; on validation failure only `setError(true)`; otherwise
resolve the next field, and when one exists set it current, append it to
the history and clear the error; at the end of the form the state is
unchanged. -/
def handleNext (fields : List FormPage) (s : FormState)
    (overrideValue : Option Value) : FormState :=
  match findFieldById fields s.currentFieldId with
  | none => s
  | some currentField =>
    if ¬ validateCurrentField fields s overrideValue then
      { s with error := true }
    else
      let currentValue := effectiveValue s currentField overrideValue
      match getNextFieldId currentField currentValue fields with
      | some nextFieldId =>
        { s with
            error := false
            currentFieldId := nextFieldId
            navigationHistory := s.navigationHistory ++ [nextFieldId] }
      | none => s

/-- `handlePrevious()`: unconditionally `setError(false)`; when the
history holds more than one entry, pop the tail and make the new tail
the current field; otherwise leave history and current field alone. -/
def handlePrevious (s : FormState) : FormState :=
  let s' := { s with error := false }
  if s'.navigationHistory.length > 1 then
    let newHistory := s'.navigationHistory.dropLast
    { s' with
        navigationHistory := newHistory
        currentFieldId := (newHistory.getLast?).getD s'.currentFieldId }
  else
    s'

/-- One user operation on the navigator. -/
inductive NavOp where
  | input : String → Value → NavOp
  | next : Option Value → NavOp
  | prev : NavOp

/-- Apply one operation. -/
def applyOp (fields : List FormPage) (s : FormState) : NavOp → FormState
  | .input fieldId v => handleInputChange s fieldId v
  | .next overrideValue => handleNext fields s overrideValue
  | .prev => handlePrevious s

/-- Run a sequence of operations from the initial state. -/
def runOps (fields : List FormPage) (ops : List NavOp) : FormState :=
  ops.foldl (applyOp fields) (initialState fields)

/-!
Submission orchestrator: `MultiActionSubmissionService.executeActions`
with its helpers `evaluateCondition` and `executeActionWithRetry`.
The per-action transport (`executeAction`, an awaited network call) and
the JS evaluation of a condition string (`new Function`) are opaque to
the orchestrator, so both enter the model as oracle parameters: the
dispatcher is a function from (action, attempt number) to
success/failure, and the condition evaluator is a function from
(expression, formData) to a boolean or a thrown error.
-/

/-- The `SubmissionAction` TS interface, restricted to the attributes
read by the orchestration policy (transport attributes such as
`endpoint`, `apiKey` or `headers` live behind the dispatcher oracle).
`onSuccess`/`onError` keep their TS string-literal form, compared
strictly against `"stop"`/`"retry"`. -/
structure SubmissionAction where
  id : String := ""
  name : String
  enabled : Bool := true
  order : Int := 0
  condition : Option String := none
  onSuccess : Option String := none
  onError : Option String := none
  retryAttempts : Option Nat := none
deriving DecidableEq, Repr

/-- Oracle for `new Function("formData", "return " + condition)` applied
to `formData`: a boolean result or a thrown error. -/
abbrev JsEval := String → AnswerSet → Except String Bool

/-- Oracle for one `executeAction` dispatch: given the action and the
1-based attempt number, did the transport succeed? -/
abbrev Dispatch := SubmissionAction → Nat → Bool

/-- JS check `!condition || condition.trim() === ""`: the expression is
absent or consists of whitespace only. -/
def isBlankExpr (s : String) : Bool :=
  s.data.all Char.isWhitespace

/-- `evaluateCondition(condition, formData)`: `true` on an absent or
blank expression; otherwise the JS result, with any thrown error caught
and turned into `true` (fail open). -/
def evaluateCondition (jsEval : JsEval) (condition : Option String)
    (formData : AnswerSet) : Bool :=
  match condition with
  | none => true
  | some c =>
    if isBlankExpr c then true
    else
      match jsEval c formData with
      | .ok b => b
      | .error _ => true

/-- `action.retryAttempts || 1` (JS `||`: 0 and `undefined` give 1). -/
def maxAttemptsOf (action : SubmissionAction) : Nat :=
  match action.retryAttempts with
  | some n => if n = 0 then 1 else n
  | none => 1

/-- Observable outcome of `executeActionWithRetry` on one action:
whether the final attempt succeeded, the attempt numbers dispatched
(in order), and the backoff delays slept, in units of one second
(the code sleeps `Math.pow(2, attempt) * 1000` ms). -/
structure RetryOutcome where
  success : Bool
  calls : List Nat
  delays : List Nat
deriving DecidableEq, Repr

/-- Loop body of `executeActionWithRetry`, recursing on the number of
attempts still allowed (`remaining = maxAttemptsOf action - attempt`, so
`0 < remaining` is exactly the source guard
`attempt < (action.retryAttempts || 1)`): dispatch once; on failure,
when the guard and `action.onError === "retry"` hold, sleep `2^attempt`
time units and recurse with `attempt + 1`; otherwise rethrow. -/
def retryFrom (dispatch : Dispatch) (action : SubmissionAction)
    (attempt : Nat) : Nat → RetryOutcome
  | 0 =>
    if dispatch action attempt then
      { success := true, calls := [attempt], delays := [] }
    else
      { success := false, calls := [attempt], delays := [] }
  | remaining + 1 =>
    if dispatch action attempt then
      { success := true, calls := [attempt], delays := [] }
    else if action.onError = some "retry" then
      let rest := retryFrom dispatch action (attempt + 1) remaining
      { success := rest.success
        calls := attempt :: rest.calls
        delays := 2 ^ attempt :: rest.delays }
    else
      { success := false, calls := [attempt], delays := [] }

/-- `executeActionWithRetry(action, data, attempt)` entered at the given
attempt number. -/
def executeActionWithRetry (dispatch : Dispatch) (action : SubmissionAction)
    (attempt : Nat) : RetryOutcome :=
  retryFrom dispatch action attempt (maxAttemptsOf action - attempt)

/-- One entry of the `results` array (`data`/`error` payloads are
opaque and dropped). -/
structure ActionResult where
  action : String
  success : Bool
deriving DecidableEq, Repr

/-- Observable outcome of one `executeActions` run: the `results` array,
the `summary` counters, the dispatcher invocations that happened
(action name, attempt number, in order) and the backoff delays slept. -/
structure OrchRun where
  results : List ActionResult := []
  successful : Nat := 0
  failed : Nat := 0
  skipped : Nat := 0
  trace : List (String × Nat) := []
  delays : List Nat := []
deriving DecidableEq, Repr

/-- Concatenation of two run segments (the sequential loop accumulates
results, counters, invocations and delays in program order). -/
def seqAppend (x y : OrchRun) : OrchRun :=
  { results := x.results ++ y.results
    successful := x.successful + y.successful
    failed := x.failed + y.failed
    skipped := x.skipped + y.skipped
    trace := x.trace ++ y.trace
    delays := x.delays ++ y.delays }

/-- The sequential branch of `executeActions`: run each action through
`executeActionWithRetry`; record one success or one failure per action;
break out of the loop after a success with `onSuccess === "stop"` or a
failure with `onError === "stop"`. -/
def runSequential (dispatch : Dispatch) : List SubmissionAction → OrchRun
  | [] => {}
  | action :: rest =>
    let r := executeActionWithRetry dispatch action 1
    let head : OrchRun :=
      { results := [{ action := action.name, success := r.success }]
        successful := if r.success then 1 else 0
        failed := if r.success then 0 else 1
        skipped := 0
        trace := r.calls.map (fun a => (action.name, a))
        delays := r.delays }
    if r.success then
      if action.onSuccess = some "stop" then head
      else seqAppend head (runSequential dispatch rest)
    else
      if action.onError = some "stop" then head
      else seqAppend head (runSequential dispatch rest)

/-- The parallel branch of `executeActions`: every action is mapped to a
single `executeAction` dispatch (the retry wrapper is not used here);
`Promise.all` over promises that always resolve collects one result per
action, and the counters count the successes and failures among them. -/
def runParallel (dispatch : Dispatch) (actions : List SubmissionAction) : OrchRun :=
  let parallelResults := actions.map
    (fun action => { action := action.name, success := dispatch action 1 : ActionResult })
  { results := parallelResults
    successful := (parallelResults.filter (fun r => r.success)).length
    failed := (parallelResults.filter (fun r => ¬ r.success)).length
    skipped := 0
    trace := actions.map (fun action => (action.name, 1))
    delays := [] }

/-- Stable insertion step for the comparator `(a, b) => a.order - b.order`. -/
def insertByOrder (a : SubmissionAction) :
    List SubmissionAction → List SubmissionAction
  | [] => [a]
  | b :: bs => if a.order ≤ b.order then a :: b :: bs else b :: insertByOrder a bs

/-- `Array.prototype.sort` with comparator `(a, b) => a.order - b.order`
is a stable ascending sort (ECMAScript guarantees stability); modelled by
stable insertion sort. -/
def sortByOrder : List SubmissionAction → List SubmissionAction
  | [] => []
  | a :: rest => insertByOrder a (sortByOrder rest)

/-- The action pipeline at the top of `executeActions`:
`actions.filter(enabled).sort(by order).filter(condition)`. -/
def eligibleActions (jsEval : JsEval) (actions : List SubmissionAction)
    (formData : AnswerSet) : List SubmissionAction :=
  (sortByOrder (actions.filter (fun a => a.enabled))).filter
    (fun a => evaluateCondition jsEval a.condition formData)

/-- The aggregate returned by `executeActions`: `success` is
`overallSuccess`, `run` carries `results` and `summary`. -/
structure SubmissionOutcome where
  overallSuccess : Bool
  run : OrchRun
deriving DecidableEq, Repr

/-- `executeActions(formData, navigationPath)`: filter, sort and
condition-gate the configured actions, execute them in parallel or
sequentially, and aggregate with
`overallSuccess = summary.failed === 0 && summary.successful > 0`. -/
def executeActions (jsEval : JsEval) (dispatch : Dispatch)
    (actions : List SubmissionAction) (executeInParallel : Bool)
    (formData : AnswerSet) : SubmissionOutcome :=
  let enabledActions := eligibleActions jsEval actions formData
  let run :=
    if executeInParallel then runParallel dispatch enabledActions
    else runSequential dispatch enabledActions
  { overallSuccess := run.failed == 0 && decide (0 < run.successful)
    run := run }

/-!
Concrete instances used by witnesses, counterexamples and the spec's
scenarios.
-/

/-- Scenario field Q1: radio with branching "Yes" → Q3, "No" → Q2. -/
def exQ1 : FormPage :=
  { id := "Q1", type := .radio, conditionalNext := some [("Yes", "Q3"), ("No", "Q2")] }

/-- Scenario field Q2: plain text field. -/
def exQ2 : FormPage := { id := "Q2", type := .text }

/-- Scenario field Q3: plain text field. -/
def exQ3 : FormPage := { id := "Q3", type := .text }

/-- Scenario field graph [Q1, Q2, Q3]. -/
def exFields : List FormPage := [exQ1, exQ2, exQ3]

/-- A field with `defaultNext` set but no `conditionalNext` map. -/
def cexDefaultField : FormPage := { id := "Q1", type := .radio, defaultNext := some "Q3" }

/-- Field graph around `cexDefaultField`: the linear successor is Q2 and
the `defaultNext` target Q3 exists. -/
def cexDefaultFields : List FormPage := [cexDefaultField, exQ2, exQ3]

/-- A required text field with no stored answer. -/
def exRequiredField : FormPage := { id := "R1", type := .text, required := true }

/-- Field graph for the required-field scenario. -/
def exRequiredFields : List FormPage := [exRequiredField, exQ2]

/-- Condition-evaluator oracle that returns `false` on every expression. -/
def exEvalFalse : JsEval := fun _ _ => .ok false

/-- Condition-evaluator oracle that returns `true` on every expression. -/
def exEvalTrue : JsEval := fun _ _ => .ok true

/-- Condition-evaluator oracle that throws on every expression,
modelling a malformed condition. -/
def exEvalThrow : JsEval := fun _ _ => .error "SyntaxError: Unexpected token"

/-- An enabled action gated by a condition expression. -/
def exCondAction : SubmissionAction := { name := "conditional-action", condition := some "x" }

/-- Parallel-scenario action A. -/
def exParA : SubmissionAction := { name := "A" }

/-- Parallel-scenario action B. -/
def exParB : SubmissionAction := { name := "B" }

/-- Dispatcher for the parallel scenario: A fails, B succeeds. -/
def exParDispatch : Dispatch := fun action _ => action.name = "B"

/-- Sequential-scenario action with `onSuccess = "stop"`. -/
def exStopSuccessA : SubmissionAction := { name := "A", order := 1, onSuccess := some "stop" }

/-- Sequential-scenario action with `onError = "stop"`. -/
def exErrorStopA : SubmissionAction := { name := "A", order := 1, onError := some "stop" }

/-- Sequential-scenario follow-up action. -/
def exPlainB : SubmissionAction := { name := "B", order := 2 }

/-- Dispatcher that always succeeds. -/
def exDispatchTrue : Dispatch := fun _ _ => true

/-- Dispatcher that always fails. -/
def exDispatchFalse : Dispatch := fun _ _ => false

/-- Retry-scenario action: `onError = "retry"`, `retryAttempts = 3`. -/
def exRetryAction : SubmissionAction :=
  { name := "retry-action", onError := some "retry", retryAttempts := some 3 }

/-- Dispatcher that fails on attempts 1 and 2 and succeeds from attempt 3. -/
def exRetryDispatch : Dispatch := fun _ attempt => 3 ≤ attempt

/-- Dispatcher that fails on attempt 1 and succeeds from attempt 2. -/
def exSecondTryDispatch : Dispatch := fun _ attempt => 2 ≤ attempt

/-- The state reached from the scenario graph after answering Q1 = "Yes"
and advancing (history ["Q1", "Q3"]). -/
def exAdvancedState : FormState :=
  runOps exFields [NavOp.input "Q1" (Value.str "Yes"), NavOp.next none]

/-!
General lemmas about the embedded operations.
-/

/-- Membership is preserved by the stable insertion step. -/
theorem mem_insertByOrder {x a : SubmissionAction} :
    ∀ {l : List SubmissionAction}, x ∈ insertByOrder a l ↔ x = a ∨ x ∈ l := by
  intro l
  induction l with
  | nil => simp [insertByOrder]
  | cons b bs ih =>
    by_cases hab : a.order ≤ b.order
    · simp [insertByOrder, hab]
    · simp [insertByOrder, hab, ih]
      tauto

/-- Membership is preserved by the stable sort. -/
theorem mem_sortByOrder {x : SubmissionAction} :
    ∀ {l : List SubmissionAction}, x ∈ sortByOrder l ↔ x ∈ l := by
  intro l
  induction l with
  | nil => simp [sortByOrder]
  | cons a rest ih =>
    simp [sortByOrder, mem_insertByOrder, ih]

/-- The retry loop always makes at least one attempt. -/
theorem retryFrom_calls_pos (dispatch : Dispatch) (action : SubmissionAction) :
    ∀ remaining attempt, 0 < (retryFrom dispatch action attempt remaining).calls.length := by
  intro remaining
  induction remaining with
  | zero =>
    intro attempt
    by_cases h : dispatch action attempt <;> simp [retryFrom, h]
  | succ r ih =>
    intro attempt
    by_cases h : dispatch action attempt
    · simp [retryFrom, h]
    · by_cases h2 : action.onError = some "retry" <;> simp [retryFrom, h, h2]

/-- The retry loop makes at most `remaining + 1` attempts. -/
theorem retryFrom_calls_length_le (dispatch : Dispatch) (action : SubmissionAction) :
    ∀ remaining attempt,
      (retryFrom dispatch action attempt remaining).calls.length ≤ remaining + 1 := by
  intro remaining
  induction remaining with
  | zero =>
    intro attempt
    by_cases h : dispatch action attempt <;> simp [retryFrom, h]
  | succ r ih =>
    intro attempt
    by_cases h : dispatch action attempt
    · simp [retryFrom, h]
    · by_cases h2 : action.onError = some "retry"
      · simp only [retryFrom, h, h2, if_false, if_true, Bool.false_eq_true, ite_false]
        simpa [retryFrom, h, h2] using Nat.succ_le_succ (ih (attempt + 1))
      · simp [retryFrom, h, h2]

/-- The attempts of the retry loop are numbered consecutively from the
starting attempt. -/
theorem retryFrom_calls_eq (dispatch : Dispatch) (action : SubmissionAction) :
    ∀ remaining attempt,
      (retryFrom dispatch action attempt remaining).calls
        = List.range' attempt (retryFrom dispatch action attempt remaining).calls.length := by
  intro remaining
  induction remaining with
  | zero =>
    intro attempt
    by_cases h : dispatch action attempt <;> simp [retryFrom, h, List.range']
  | succ r ih =>
    intro attempt
    by_cases h : dispatch action attempt
    · simp [retryFrom, h, List.range']
    · by_cases h2 : action.onError = some "retry"
      · simp only [retryFrom, h, h2, Bool.false_eq_true, if_false, if_true, ite_false,
          List.length_cons]
        rw [List.range'_succ]
        simpa using ih (attempt + 1)
      · simp [retryFrom, h, h2, List.range']

/-- The backoff delay slept before attempt `n + 1` is `2 ^ n` time
units: the delays are exactly `2 ^ attempt` for every attempt except the
last one made. -/
theorem retryFrom_delays_eq (dispatch : Dispatch) (action : SubmissionAction) :
    ∀ remaining attempt,
      (retryFrom dispatch action attempt remaining).delays
        = (List.range' attempt
            ((retryFrom dispatch action attempt remaining).calls.length - 1)).map
            (fun n => 2 ^ n) := by
  intro remaining
  induction remaining with
  | zero =>
    intro attempt
    by_cases h : dispatch action attempt <;> simp [retryFrom, h, List.range']
  | succ r ih =>
    intro attempt
    by_cases h : dispatch action attempt
    · simp [retryFrom, h, List.range']
    · by_cases h2 : action.onError = some "retry"
      · simp only [retryFrom, h, h2, Bool.false_eq_true, if_false, if_true, ite_false,
          List.length_cons, Nat.add_sub_cancel]
        obtain ⟨m, hm⟩ := Nat.exists_eq_add_of_lt
          (retryFrom_calls_pos dispatch action r (attempt + 1))
        have hm' : (retryFrom dispatch action (attempt + 1) r).calls.length = m + 1 := by
          omega
        rw [hm', List.range'_succ, List.map_cons]
        have := ih (attempt + 1)
        rw [hm'] at this
        simpa using this
      · simp [retryFrom, h, h2, List.range']

/-- `retryAttempts || 1` is at least one. -/
theorem one_le_maxAttemptsOf (action : SubmissionAction) : 1 ≤ maxAttemptsOf action := by
  unfold maxAttemptsOf
  cases h : action.retryAttempts with
  | none => simp
  | some n =>
    by_cases hn : n = 0
    · simp [hn]
    · simp only [hn, if_false, ite_false]
      omega

/-- The sequential loop never touches the `skipped` counter. -/
theorem runSequential_skipped (dispatch : Dispatch) :
    ∀ actions, (runSequential dispatch actions).skipped = 0 := by
  intro actions
  induction actions with
  | nil => rfl
  | cons action rest ih =>
    by_cases h : (executeActionWithRetry dispatch action 1).success
    · by_cases h2 : action.onSuccess = some "stop" <;>
        simp [runSequential, seqAppend, h, h2, ih]
    · by_cases h2 : action.onError = some "stop" <;>
        simp [runSequential, seqAppend, h, h2, ih]

/-- Every dispatcher invocation of the sequential loop belongs to an
action of the input list. -/
theorem runSequential_trace_mem (dispatch : Dispatch) :
    ∀ actions, ∀ e ∈ (runSequential dispatch actions).trace,
      ∃ a ∈ actions, a.name = e.1 := by
  intro actions
  induction actions with
  | nil => simp [runSequential]
  | cons action rest ih =>
    intro e he
    have hhead : ∀ e' ∈ (List.map (fun a => (action.name, a))
        (executeActionWithRetry dispatch action 1).calls),
        ∃ a ∈ action :: rest, a.name = e'.1 := by
      intro e' he'
      obtain ⟨n, _, rfl⟩ := List.mem_map.mp he'
      exact ⟨action, List.mem_cons_self action rest, rfl⟩
    by_cases h : (executeActionWithRetry dispatch action 1).success
    · by_cases h2 : action.onSuccess = some "stop"
      · simp only [runSequential, h, h2, if_true, ite_true] at he
        exact hhead e he
      · simp only [runSequential, seqAppend, h, h2] at he
        simp only [if_true, ite_true, if_false, ite_false, List.mem_append] at he
        rcases he with he | he
        · exact hhead e he
        · obtain ⟨a, ha, hn⟩ := ih e he
          exact ⟨a, List.mem_cons_of_mem action ha, hn⟩
    · by_cases h2 : action.onError = some "stop"
      · simp only [runSequential, h, h2] at he
        simp only [if_false, ite_false, if_true, ite_true, Bool.false_eq_true] at he
        exact hhead e he
      · simp only [runSequential, seqAppend, h, h2] at he
        simp only [if_false, ite_false, Bool.false_eq_true, List.mem_append] at he
        rcases he with he | he
        · exact hhead e he
        · obtain ⟨a, ha, hn⟩ := ih e he
          exact ⟨a, List.mem_cons_of_mem action ha, hn⟩

/-- Every entry of the sequential loop's `results` belongs to an action
of the input list. -/
theorem runSequential_results_mem (dispatch : Dispatch) :
    ∀ actions, ∀ r ∈ (runSequential dispatch actions).results,
      ∃ a ∈ actions, a.name = r.action := by
  intro actions
  induction actions with
  | nil => simp [runSequential]
  | cons action rest ih =>
    intro r hr
    by_cases h : (executeActionWithRetry dispatch action 1).success
    · by_cases h2 : action.onSuccess = some "stop"
      · simp only [runSequential, h, h2, if_true, ite_true, List.mem_singleton] at hr
        exact ⟨action, List.mem_cons_self action rest, by rw [hr]⟩
      · simp only [runSequential, seqAppend, h, h2, if_true, ite_true, if_false, ite_false,
          List.singleton_append, List.mem_cons] at hr
        rcases hr with hr | hr
        · exact ⟨action, List.mem_cons_self action rest, by rw [hr]⟩
        · obtain ⟨a, ha, hn⟩ := ih r hr
          exact ⟨a, List.mem_cons_of_mem action ha, hn⟩
    · by_cases h2 : action.onError = some "stop"
      · simp only [runSequential, h, h2, if_false, ite_false, if_true, ite_true,
          Bool.false_eq_true, List.mem_singleton] at hr
        exact ⟨action, List.mem_cons_self action rest, by rw [hr]⟩
      · simp only [runSequential, seqAppend, h, h2, if_false, ite_false, Bool.false_eq_true,
          List.singleton_append, List.mem_cons] at hr
        rcases hr with hr | hr
        · exact ⟨action, List.mem_cons_self action rest, by rw [hr]⟩
        · obtain ⟨a, ha, hn⟩ := ih r hr
          exact ⟨a, List.mem_cons_of_mem action ha, hn⟩

/-!
Claim theorems.
-/

/-- C5: `overallSuccess` is true iff zero actions failed and at least
one succeeded; an empty action list and an all-condition-filtered action
list both yield `overallSuccess = false`; two actions run in parallel
where one fails and one succeeds yield `overallSuccess = false`,
`successful = 1`, `failed = 1`. -/
theorem c5_overall_success :
    (∀ (jsEval : JsEval) (dispatch : Dispatch) (actions : List SubmissionAction)
        (executeInParallel : Bool) (formData : AnswerSet),
      (executeActions jsEval dispatch actions executeInParallel formData).overallSuccess = true ↔
        ((executeActions jsEval dispatch actions executeInParallel formData).run.failed = 0 ∧
         0 < (executeActions jsEval dispatch actions executeInParallel formData).run.successful)) ∧
    (∀ (jsEval : JsEval) (dispatch : Dispatch) (executeInParallel : Bool)
        (formData : AnswerSet),
      (executeActions jsEval dispatch [] executeInParallel formData).overallSuccess = false) ∧
    ((executeActions exEvalFalse exDispatchTrue [exCondAction] false []).overallSuccess
        = false) ∧
    ((executeActions exEvalTrue exParDispatch [exParA, exParB] true []).overallSuccess = false ∧
     (executeActions exEvalTrue exParDispatch [exParA, exParB] true []).run.successful = 1 ∧
     (executeActions exEvalTrue exParDispatch [exParA, exParB] true []).run.failed = 1) := by
  refine ⟨?_, ?_, by decide, by decide⟩
  · intro jsEval dispatch actions executeInParallel formData
    simp [executeActions]
  · intro jsEval dispatch executeInParallel formData
    cases executeInParallel <;> rfl

/-- C6: in sequential mode a successful action with
`onSuccess = "stop"`, or a failed action with `onError = "stop"`, makes
the run of `action :: rest` identical to the run of `[action]` alone:
no action of `rest` is dispatched and `rest` contributes nothing to the
results, the counters (skipped or failed included), the invocation trace
or the delays. -/
theorem c6_sequential_stop (dispatch : Dispatch) (action : SubmissionAction)
    (rest : List SubmissionAction) :
    ((executeActionWithRetry dispatch action 1).success = true →
      action.onSuccess = some "stop" →
      runSequential dispatch (action :: rest) = runSequential dispatch [action]) ∧
    ((executeActionWithRetry dispatch action 1).success = false →
      action.onError = some "stop" →
      runSequential dispatch (action :: rest) = runSequential dispatch [action]) := by
  constructor
  · intro h1 h2
    simp [runSequential, h1, h2]
  · intro h1 h2
    simp [runSequential, h1, h2]

/-- Witness for C6 at concrete inputs: an always-succeeding dispatcher
with `onSuccess = "stop"`, and an always-failing dispatcher with
`onError = "stop"`, each followed by a second action B. -/
theorem c6_sequential_stop_witness :
    runSequential exDispatchTrue (exStopSuccessA :: [exPlainB])
        = runSequential exDispatchTrue [exStopSuccessA] ∧
    runSequential exDispatchFalse (exErrorStopA :: [exPlainB])
        = runSequential exDispatchFalse [exErrorStopA] :=
  ⟨(c6_sequential_stop exDispatchTrue exStopSuccessA [exPlainB]).1 (by decide) (by decide),
   (c6_sequential_stop exDispatchFalse exErrorStopA [exPlainB]).2 (by decide) (by decide)⟩

/-- C7: an action entered at attempt 1 is dispatched at most
`retryAttempts || 1` times, the attempts are numbered 1, 2, ..., the
delay slept before attempt n+1 is `2^n` time units, a fully failed
action is recorded as exactly one failure, and in the concrete scenario
(`retryAttempts = 3`, dispatcher failing twice then succeeding) the
result is a success with exactly the two delays 2 and 4 and no reported
failure. -/
theorem c7_retry_backoff :
    (∀ (dispatch : Dispatch) (action : SubmissionAction),
      (executeActionWithRetry dispatch action 1).calls.length ≤ maxAttemptsOf action) ∧
    (∀ (dispatch : Dispatch) (action : SubmissionAction),
      (executeActionWithRetry dispatch action 1).calls
        = List.range' 1 (executeActionWithRetry dispatch action 1).calls.length) ∧
    (∀ (dispatch : Dispatch) (action : SubmissionAction),
      (executeActionWithRetry dispatch action 1).delays
        = (List.range' 1
            ((executeActionWithRetry dispatch action 1).calls.length - 1)).map
            (fun n => 2 ^ n)) ∧
    (∀ (dispatch : Dispatch) (action : SubmissionAction),
      (runSequential dispatch [action]).failed
        = if (executeActionWithRetry dispatch action 1).success then 0 else 1) ∧
    (executeActionWithRetry exRetryDispatch exRetryAction 1
        = { success := true, calls := [1, 2, 3], delays := [2, 4] } ∧
     runSequential exRetryDispatch [exRetryAction]
        = { results := [{ action := "retry-action", success := true }]
            successful := 1, failed := 0, skipped := 0
            trace := [("retry-action", 1), ("retry-action", 2), ("retry-action", 3)]
            delays := [2, 4] }) := by
  refine ⟨?_, ?_, ?_, ?_, by decide, by decide⟩
  · intro dispatch action
    have h := retryFrom_calls_length_le dispatch action (maxAttemptsOf action - 1) 1
    have h1 := one_le_maxAttemptsOf action
    unfold executeActionWithRetry
    omega
  · intro dispatch action
    exact retryFrom_calls_eq dispatch action (maxAttemptsOf action - 1) 1
  · intro dispatch action
    exact retryFrom_delays_eq dispatch action (maxAttemptsOf action - 1) 1
  · intro dispatch action
    by_cases h : (executeActionWithRetry dispatch action 1).success
    · by_cases h2 : action.onSuccess = some "stop" <;>
        simp [runSequential, seqAppend, h, h2]
    · by_cases h2 : action.onError = some "stop" <;>
        simp [runSequential, seqAppend, h, h2]

/-- C9: condition evaluation returns `true` on an absent expression, on
a blank expression, and on an expression whose JS evaluation throws
(fail open); consequently an enabled action whose condition evaluates
`true` — in particular one with a malformed condition — survives the
eligibility pipeline and is not blocked from running. -/
theorem c9_condition_fails_open :
    (∀ (jsEval : JsEval) (formData : AnswerSet),
      evaluateCondition jsEval none formData = true) ∧
    (∀ (jsEval : JsEval) (formData : AnswerSet) (c : String),
      isBlankExpr c = true → evaluateCondition jsEval (some c) formData = true) ∧
    (∀ (jsEval : JsEval) (formData : AnswerSet) (c msg : String),
      jsEval c formData = .error msg → evaluateCondition jsEval (some c) formData = true) ∧
    (∀ (jsEval : JsEval) (formData : AnswerSet) (actions : List SubmissionAction)
        (a : SubmissionAction),
      a ∈ actions → a.enabled = true →
      evaluateCondition jsEval a.condition formData = true →
      a ∈ eligibleActions jsEval actions formData) := by
  refine ⟨fun _ _ => rfl, ?_, ?_, ?_⟩
  · intro jsEval formData c hc
    simp [evaluateCondition, hc]
  · intro jsEval formData c msg hc
    by_cases hb : isBlankExpr c <;> simp [evaluateCondition, hb, hc]
  · intro jsEval formData actions a ha hen hcond
    unfold eligibleActions
    rw [List.mem_filter]
    refine ⟨mem_sortByOrder.mpr ?_, hcond⟩
    rw [List.mem_filter]
    exact ⟨ha, hen⟩

/-- Witness for C9 at concrete inputs: a blank expression, a throwing
evaluator on a malformed expression, and an enabled action with a
malformed condition that stays eligible. -/
theorem c9_condition_fails_open_witness :
    evaluateCondition exEvalThrow (some "   ") [] = true ∧
    evaluateCondition exEvalThrow (some "this is ]] not js") [] = true ∧
    exCondAction ∈ eligibleActions exEvalThrow [exCondAction] [] :=
  ⟨c9_condition_fails_open.2.1 exEvalThrow [] "   " (by decide),
   c9_condition_fails_open.2.2.1 exEvalThrow [] "this is ]] not js"
     "SyntaxError: Unexpected token" rfl,
   c9_condition_fails_open.2.2.2 exEvalThrow [] [exCondAction] exCondAction
     (by decide) (by decide) (by decide)⟩

/-- C2: when the current field is required and its effective answer
(override, else stored) is empty or absent, `handleNext` leaves
`currentFieldId` and `navigationHistory` unchanged and sets the
validation-error flag; and storing an answer (`handleInputChange`) never
touches `currentFieldId`, the history or the error flag, so the
validation happens at advance time only. -/
theorem c2_required_blocks_advance (fields : List FormPage) (s : FormState)
    (overrideValue : Option Value) (currentField : FormPage)
    (hcf : findFieldById fields s.currentFieldId = some currentField)
    (hreq : currentField.required = true)
    (hempty : isEmptyAnswer (effectiveValue s currentField overrideValue) = true) :
    (handleNext fields s overrideValue).currentFieldId = s.currentFieldId ∧
    (handleNext fields s overrideValue).navigationHistory = s.navigationHistory ∧
    (handleNext fields s overrideValue).error = true ∧
    (∀ (fieldId : String) (v : Value),
      (handleInputChange s fieldId v).currentFieldId = s.currentFieldId ∧
      (handleInputChange s fieldId v).navigationHistory = s.navigationHistory ∧
      (handleInputChange s fieldId v).error = s.error) := by
  have hval : validateCurrentField fields s overrideValue = false := by
    simp [validateCurrentField, hcf, hreq, hempty]
  refine ⟨?_, ?_, ?_, fun fieldId v => ⟨rfl, rfl, rfl⟩⟩ <;>
    simp [handleNext, hcf, hval]

/-- Witness for C2: the scenario graph whose first field R1 is required
and unanswered; advancing from the initial state is rejected. -/
theorem c2_required_blocks_advance_witness :
    (handleNext exRequiredFields (initialState exRequiredFields) none).currentFieldId
        = (initialState exRequiredFields).currentFieldId ∧
    (handleNext exRequiredFields (initialState exRequiredFields) none).navigationHistory
        = (initialState exRequiredFields).navigationHistory ∧
    (handleNext exRequiredFields (initialState exRequiredFields) none).error = true :=
  have h := c2_required_blocks_advance exRequiredFields (initialState exRequiredFields)
    none exRequiredField (by decide) (by decide) (by decide)
  ⟨h.1, h.2.1, h.2.2.1⟩

/-- Popping the last element of a list that has more than one element
keeps it non-empty and keeps its head. -/
theorem dropLast_keeps_head {l : List String} (h : 1 < l.length) :
    l.dropLast ≠ [] ∧ l.dropLast.head? = l.head? := by
  match l with
  | [] => simp at h
  | [a] => simp at h
  | a :: b :: t => simp

/-- Every navigator operation preserves "the history is non-empty and
starts with the first field's id". -/
theorem applyOp_preserves_history (fields : List FormPage) (s : FormState) (op : NavOp)
    (h1 : s.navigationHistory ≠ [])
    (h2 : s.navigationHistory.head? = some (firstFieldId fields)) :
    (applyOp fields s op).navigationHistory ≠ [] ∧
    (applyOp fields s op).navigationHistory.head? = some (firstFieldId fields) := by
  cases op with
  | input fieldId v => exact ⟨h1, h2⟩
  | next ov =>
    have hop : applyOp fields s (NavOp.next ov) = handleNext fields s ov := rfl
    rw [hop]
    cases hf : findFieldById fields s.currentFieldId with
    | none =>
      simp only [handleNext, hf]
      exact ⟨h1, h2⟩
    | some cf =>
      by_cases hv : validateCurrentField fields s ov
      · cases hn : getNextFieldId cf (effectiveValue s cf ov) fields with
        | none =>
          simp [handleNext, hf, hv, hn]
          exact ⟨h1, h2⟩
        | some nx =>
          simp [handleNext, hf, hv, hn]
          exact Or.inl h2
      · simp [handleNext, hf, hv]
        exact ⟨h1, h2⟩
  | prev =>
    have hop : applyOp fields s NavOp.prev = handlePrevious s := rfl
    rw [hop]
    by_cases hl : s.navigationHistory.length > 1
    · have hd := dropLast_keeps_head hl
      simp [handlePrevious, hl]
      exact ⟨hd.1, hd.2.trans h2⟩
    · simp [handlePrevious, hl]
      exact ⟨h1, h2⟩

/-- The history invariant holds in every state reachable by a sequence
of operations from the initial state. -/
theorem runOps_history_invariant (fields : List FormPage) (ops : List NavOp) :
    (runOps fields ops).navigationHistory ≠ [] ∧
    (runOps fields ops).navigationHistory.head? = some (firstFieldId fields) := by
  suffices h : ∀ (l : List NavOp) (s : FormState), s.navigationHistory ≠ [] →
      s.navigationHistory.head? = some (firstFieldId fields) →
      (l.foldl (applyOp fields) s).navigationHistory ≠ [] ∧
      (l.foldl (applyOp fields) s).navigationHistory.head? = some (firstFieldId fields) by
    exact h ops (initialState fields) (by simp [initialState]) (by simp [initialState])
  intro l
  induction l with
  | nil => intro s h1 h2; exact ⟨h1, h2⟩
  | cons op rest ih =>
    intro s h1 h2
    have hstep := applyOp_preserves_history fields s op h1 h2
    exact ih (applyOp fields s op) hstep.1 hstep.2

/-- C3: after every sequence of operations the navigation history is
non-empty and starts with the first field's id; `handlePrevious` is a
no-op on the navigation state when the history has exactly one entry,
and otherwise pops the tail and makes the new tail current;
`handleNext`, when it advances, appends the resolved field id to the
history and makes it current. -/
theorem c3_history_invariant :
    (∀ (fields : List FormPage) (ops : List NavOp),
      (runOps fields ops).navigationHistory ≠ [] ∧
      (runOps fields ops).navigationHistory.head? = some (firstFieldId fields)) ∧
    (∀ s : FormState, s.navigationHistory.length = 1 →
      (handlePrevious s).navigationHistory = s.navigationHistory ∧
      (handlePrevious s).currentFieldId = s.currentFieldId ∧
      (handlePrevious s).formData = s.formData) ∧
    (∀ (s : FormState) (p : String), 1 < s.navigationHistory.length →
      s.navigationHistory.dropLast.getLast? = some p →
      (handlePrevious s).navigationHistory = s.navigationHistory.dropLast ∧
      (handlePrevious s).currentFieldId = p) ∧
    (∀ (fields : List FormPage) (s : FormState) (ov : Option Value)
        (cf : FormPage) (next : String),
      findFieldById fields s.currentFieldId = some cf →
      validateCurrentField fields s ov = true →
      getNextFieldId cf (effectiveValue s cf ov) fields = some next →
      (handleNext fields s ov).navigationHistory = s.navigationHistory ++ [next] ∧
      (handleNext fields s ov).currentFieldId = next) := by
  refine ⟨runOps_history_invariant, ?_, ?_, ?_⟩
  · intro s hlen
    have : ¬ s.navigationHistory.length > 1 := by omega
    simp [handlePrevious, this]
  · intro s p hlen hp
    simp [handlePrevious, hlen, hp]
  · intro fields s ov cf next hcf hval hnext
    simp [handleNext, hcf, hval, hnext]

/-- Witness for C3 at concrete inputs: the scenario graph, a run that
answers Q1 = "Yes", advances to Q3 and retreats; the retreat from
history ["Q1", "Q3"] pops back to Q1, the retreat at the singleton
initial history is a no-op, and the advance from the initial state
appends "Q3". -/
theorem c3_history_invariant_witness :
    ((runOps exFields [NavOp.input "Q1" (Value.str "Yes"), NavOp.next none,
        NavOp.prev]).navigationHistory ≠ [] ∧
      (runOps exFields [NavOp.input "Q1" (Value.str "Yes"), NavOp.next none,
        NavOp.prev]).navigationHistory.head? = some (firstFieldId exFields)) ∧
    ((handlePrevious (initialState exFields)).navigationHistory
        = (initialState exFields).navigationHistory ∧
      (handlePrevious (initialState exFields)).currentFieldId
        = (initialState exFields).currentFieldId) ∧
    ((handlePrevious exAdvancedState).navigationHistory
        = exAdvancedState.navigationHistory.dropLast ∧
      (handlePrevious exAdvancedState).currentFieldId = "Q1") ∧
    ((handleNext exFields (initialState exFields) (some (Value.str "Yes"))).navigationHistory
        = (initialState exFields).navigationHistory ++ ["Q3"] ∧
      (handleNext exFields (initialState exFields) (some (Value.str "Yes"))).currentFieldId
        = "Q3") :=
  have hrun := c3_history_invariant.1 exFields
    [NavOp.input "Q1" (Value.str "Yes"), NavOp.next none, NavOp.prev]
  have hnoop := c3_history_invariant.2.1 (initialState exFields) (by decide)
  have hpop := c3_history_invariant.2.2.1 exAdvancedState "Q1" (by decide) (by decide)
  have happ := c3_history_invariant.2.2.2 exFields (initialState exFields)
    (some (Value.str "Yes")) exQ1 "Q3" (by decide) (by decide) (by decide)
  ⟨hrun, ⟨hnoop.1, hnoop.2.1⟩, hpop, happ⟩

/-- C1 counterexample: for the field Q1 that sets `defaultNext = "Q3"`
but defines no `conditionalNext` map, in a graph where Q3 exists and the
linear successor is Q2, the code resolves the next field to Q2 (linear
order) while the claimed precedence (conditionalNext, then defaultNext,
then linear order) resolves it to Q3: `defaultNext` is ignored whenever
the field has no `conditionalNext` map. -/
theorem c1_counterexample :
    getNextFieldId cexDefaultField none cexDefaultFields
        ≠ resolveNextClaimed cexDefaultField none cexDefaultFields ∧
    getNextFieldId cexDefaultField none cexDefaultFields = some "Q2" ∧
    resolveNextClaimed cexDefaultField none cexDefaultFields = some "Q3" ∧
    cexDefaultField.defaultNext = some "Q3" ∧
    (findFieldById cexDefaultFields "Q3").isSome = true := by
  decide

/-- C1 amended: when the current field defines a `conditionalNext` map,
advancing resolves the entry for the stringified answer first, then
`defaultNext`, then linear order, tolerating empty-string or dangling
targets by falling through to the next rule; a field without a
`conditionalNext` map ignores `defaultNext` and advances in linear
order. Stated as an equation between the code's resolver and the
function written from the amended claim's words. -/
theorem c1_next_precedence (currentField : FormPage) (fieldValue : Option Value)
    (fields : List FormPage) :
    getNextFieldId currentField fieldValue fields
      = resolveNextAmended currentField fieldValue fields := by
  unfold getNextFieldId resolveNextAmended evaluateConditionalNext linearNextId
  cases hc : currentField.conditionalNext with
  | none => rfl
  | some rules =>
    simp only [hc]
    cases hl : lookupRule rules (answerKey currentField.type fieldValue) with
    | none =>
      cases hd : currentField.defaultNext with
      | none => simp [strTruthy, hl, hd]
      | some d =>
        by_cases hdf : (findFieldById fields d).isSome
        · by_cases hde : d = "" <;> simp [strTruthy, hl, hd, hde, hdf]
        · by_cases hde : d = "" <;> simp [strTruthy, hl, hd, hde, hdf]
    | some t =>
      by_cases htf : (findFieldById fields t).isSome
      · by_cases hte : t = ""
        · cases hd : currentField.defaultNext with
          | none => simp [strTruthy, hl, hte, htf, hd]
          | some d =>
            by_cases hdf : (findFieldById fields d).isSome
            · by_cases hde : d = "" <;> simp [strTruthy, hl, hte, htf, hd, hde, hdf]
            · by_cases hde : d = "" <;> simp [strTruthy, hl, hte, htf, hd, hde, hdf]
        · simp [strTruthy, hl, hte, htf]
      · by_cases hte : t = ""
        all_goals
          cases hd : currentField.defaultNext with
          | none => simp [strTruthy, hl, hte, htf, hd]
          | some d =>
            by_cases hdf : (findFieldById fields d).isSome
            · by_cases hde : d = "" <;> simp [strTruthy, hl, hte, htf, hd, hde, hdf]
            · by_cases hde : d = "" <;> simp [strTruthy, hl, hte, htf, hd, hde, hdf]

/-- Inserting into a list sorted by `order` keeps it sorted. -/
theorem pairwise_insertByOrder {a : SubmissionAction} :
    ∀ {l : List SubmissionAction},
      List.Pairwise (fun x y => x.order ≤ y.order) l →
      List.Pairwise (fun x y => x.order ≤ y.order) (insertByOrder a l) := by
  intro l h
  induction l with
  | nil => simp [insertByOrder]
  | cons b bs ih =>
    rw [List.pairwise_cons] at h
    obtain ⟨hb, hbs⟩ := h
    by_cases hab : a.order ≤ b.order
    · rw [insertByOrder, if_pos hab, List.pairwise_cons]
      refine ⟨?_, List.pairwise_cons.mpr ⟨hb, hbs⟩⟩
      intro x hx
      rcases List.mem_cons.mp hx with rfl | hx'
      · exact hab
      · exact le_trans hab (hb x hx')
    · rw [insertByOrder, if_neg hab, List.pairwise_cons]
      refine ⟨?_, ih hbs⟩
      intro x hx
      rcases mem_insertByOrder.mp hx with rfl | hx'
      · omega
      · exact hb x hx'

/-- The stable sort produces a list sorted ascending by `order`. -/
theorem pairwise_sortByOrder :
    ∀ l : List SubmissionAction,
      List.Pairwise (fun x y => x.order ≤ y.order) (sortByOrder l) := by
  intro l
  induction l with
  | nil => simp [sortByOrder]
  | cons a rest ih => exact pairwise_insertByOrder ih

/-- Stability of the insertion step: restricted to any one `order` key,
inserting `a` is the same as prepending `a` (elements skipped over by
the insertion have a strictly smaller key). -/
theorem filter_key_insertByOrder (a : SubmissionAction) (k : Int) :
    ∀ l : List SubmissionAction,
      (insertByOrder a l).filter (fun x => x.order == k)
        = ((a :: l).filter (fun x => x.order == k)) := by
  intro l
  induction l with
  | nil => rfl
  | cons b bs ih =>
    by_cases hab : a.order ≤ b.order
    · rw [insertByOrder, if_pos hab]
    · rw [insertByOrder, if_neg hab]
      by_cases pb : b.order = k
      · have pa : ¬ a.order = k := by omega
        simp [List.filter_cons, beq_iff_eq, pa, pb, ih]
      · simp [List.filter_cons, beq_iff_eq, pb, ih]

/-- Stability of the sort: restricted to any one `order` key, sorting
preserves the original relative order of the actions (the classic
stability characterisation of a stable sort). -/
theorem filter_key_sortByOrder (k : Int) :
    ∀ l : List SubmissionAction,
      (sortByOrder l).filter (fun x => x.order == k)
        = l.filter (fun x => x.order == k) := by
  intro l
  induction l with
  | nil => rfl
  | cons a rest ih =>
    rw [sortByOrder, filter_key_insertByOrder]
    by_cases pa : a.order = k <;> simp [List.filter, pa, ih]

/-- Every dispatcher invocation of the parallel branch belongs to an
action of the input list. -/
theorem runParallel_trace_mem (dispatch : Dispatch) (actions : List SubmissionAction) :
    ∀ e ∈ (runParallel dispatch actions).trace, ∃ a ∈ actions, a.name = e.1 := by
  intro e he
  simp only [runParallel, List.mem_map] at he
  obtain ⟨a, ha, rfl⟩ := he
  exact ⟨a, ha, rfl⟩

/-- Every entry of the parallel branch's `results` belongs to an action
of the input list. -/
theorem runParallel_results_mem (dispatch : Dispatch) (actions : List SubmissionAction) :
    ∀ r ∈ (runParallel dispatch actions).results, ∃ a ∈ actions, a.name = r.action := by
  intro r hr
  simp only [runParallel, List.mem_map] at hr
  obtain ⟨a, ha, rfl⟩ := hr
  exact ⟨a, ha, rfl⟩

/-- C4 counterexample: a single enabled action whose condition evaluates
`false` is removed by the condition filter (it is neither dispatched nor
reported in `results`), yet the aggregate's `skipped` counter stays 0 —
the code initialises `summary.skipped` to 0 and never increments it, so
the removed action is not "counted as skipped" as the claim states. -/
theorem c4_counterexample :
    exCondAction.enabled = true ∧
    evaluateCondition exEvalFalse exCondAction.condition [] = false ∧
    eligibleActions exEvalFalse [exCondAction] [] = [] ∧
    (executeActions exEvalFalse exDispatchTrue [exCondAction] false []).run.trace = [] ∧
    (executeActions exEvalFalse exDispatchTrue [exCondAction] false []).run.results = [] ∧
    (executeActions exEvalFalse exDispatchTrue [exCondAction] false []).run.skipped = 0 := by
  decide

/-- C4 amended: the pipeline keeps `enabled = true` actions, sorts them
ascending by `order` with ties kept in declaration order (stable), and
removes actions whose condition evaluates `false`; a removed action is
neither dispatched nor reported as failed (or at all), but it is not
counted either — `skipped` is always 0. -/
theorem c4_filter_sort_skip (jsEval : JsEval) (dispatch : Dispatch)
    (actions : List SubmissionAction) (executeInParallel : Bool) (formData : AnswerSet) :
    List.Pairwise (fun x y => x.order ≤ y.order)
      (sortByOrder (actions.filter (fun a => a.enabled))) ∧
    (∀ k : Int,
      (sortByOrder (actions.filter (fun a => a.enabled))).filter (fun x => x.order == k)
        = (actions.filter (fun a => a.enabled)).filter (fun x => x.order == k)) ∧
    eligibleActions jsEval actions formData
      = (sortByOrder (actions.filter (fun a => a.enabled))).filter
          (fun a => evaluateCondition jsEval a.condition formData) ∧
    (executeActions jsEval dispatch actions executeInParallel formData).run.skipped = 0 ∧
    (∀ e ∈ (executeActions jsEval dispatch actions executeInParallel formData).run.trace,
      ∃ a ∈ eligibleActions jsEval actions formData, a.name = e.1) ∧
    (∀ r ∈ (executeActions jsEval dispatch actions executeInParallel formData).run.results,
      ∃ a ∈ eligibleActions jsEval actions formData, a.name = r.action) := by
  refine ⟨pairwise_sortByOrder _, fun k => filter_key_sortByOrder k _, rfl, ?_, ?_, ?_⟩
  · cases executeInParallel with
    | true => rfl
    | false => exact runSequential_skipped dispatch (eligibleActions jsEval actions formData)
  · cases executeInParallel with
    | true => exact runParallel_trace_mem dispatch _
    | false => exact runSequential_trace_mem dispatch _
  · cases executeInParallel with
    | true => exact runParallel_results_mem dispatch _
    | false => exact runSequential_results_mem dispatch _

/-- Witness for C4 at concrete inputs: two always-dispatchable actions
declared out of order; the run dispatches the `order = 1` action first
and its trace entry names an eligible action. -/
theorem c4_filter_sort_skip_witness :
    (executeActions exEvalTrue exDispatchTrue [exPlainB, exStopSuccessA] false []).run.skipped
        = 0 ∧
    (∃ a ∈ eligibleActions exEvalTrue [exPlainB, exStopSuccessA] [], a.name = "A") :=
  have h := c4_filter_sort_skip exEvalTrue exDispatchTrue [exPlainB, exStopSuccessA] false []
  ⟨h.2.2.2.1, h.2.2.2.2.1 ("A", 1) (by decide)⟩

/-- C8 counterexample: in parallel mode an action with
`onError = "retry"` and `retryAttempts = 3`, whose dispatcher fails on
attempt 1 but would succeed from attempt 2, is dispatched exactly once
and recorded as a failure: it neither succeeded nor exhausted its three
allowed attempts, so "settling means success or exhaustion of its
retryAttempts" is false of the code (the parallel branch calls
`executeAction` directly, not `executeActionWithRetry`). -/
theorem c8_counterexample :
    maxAttemptsOf exRetryAction = 3 ∧
    exRetryAction.onError = some "retry" ∧
    exSecondTryDispatch exRetryAction 2 = true ∧
    (executeActions exEvalTrue exSecondTryDispatch [exRetryAction] true []).run.trace
        = [("retry-action", 1)] ∧
    (executeActions exEvalTrue exSecondTryDispatch [exRetryAction] true []).run.failed = 1 ∧
    (executeActions exEvalTrue exSecondTryDispatch [exRetryAction] true []).run.successful
        = 0 := by
  decide

/-- C8 amended: in parallel mode every enabled, condition-passing action
is dispatched, each exactly once (attempt 1, the retry policy is not
applied), the orchestrator aggregates one settled result per eligible
action, sleeps no backoff delays, and `onSuccess`/`onError` stop
directives have no effect on which actions are dispatched. -/
theorem c8_parallel_single_dispatch (jsEval : JsEval) (dispatch : Dispatch)
    (actions : List SubmissionAction) (formData : AnswerSet) :
    (executeActions jsEval dispatch actions true formData).run.trace
      = (eligibleActions jsEval actions formData).map (fun a => (a.name, 1)) ∧
    (executeActions jsEval dispatch actions true formData).run.results
      = (eligibleActions jsEval actions formData).map
          (fun a => { action := a.name, success := dispatch a 1 }) ∧
    (executeActions jsEval dispatch actions true formData).run.successful
      = ((eligibleActions jsEval actions formData).filter (fun a => dispatch a 1)).length ∧
    (executeActions jsEval dispatch actions true formData).run.failed
      = ((eligibleActions jsEval actions formData).filter
          (fun a => ¬ dispatch a 1)).length ∧
    (executeActions jsEval dispatch actions true formData).run.delays = [] := by
  refine ⟨rfl, rfl, ?_, ?_, rfl⟩
  · simp [executeActions, runParallel, List.filter_map]
    refine congrArg List.length (List.filter_congr ?_)
    intro a _
    rfl
  · simp [executeActions, runParallel, List.filter_map]
    refine congrArg List.length (List.filter_congr ?_)
    intro a _
    rfl

end QuizForm
